import Mathlib

/-!
Verification of the nn-visualiser graph-construction core (src/main.rs).

The external graph library's `Operation` is modelled as a `RawOp`: its name
and type are `Option`-valued (`none` models text that is not valid unicode,
where the source aborts the run), and it references the other operations of
the input graph by position in the operation list.  A `PathBuf` name is
modelled as its list of path components, `PathBuf::pop` as `List.dropLast`.

`PGraph` models `petgraph::graph::Graph<Node, Edge>`: `add_node` appends and
returns the fresh index, `find_edge a b` looks for a directed edge `a → b`,
`add_edge a b` appends the directed edge `a → b`.  The builder's
`HashMap<Node, NodeIndex>` is the association list `BuildState.nodes`.
-/

structure Node where
  name : List String
  ty : String
deriving DecidableEq

structure Edge where
  dim : List (Option Nat)
  input_index : Option Nat
  output_index : Option Nat
deriving DecidableEq

/-- The raw operation exposed by the external loader.  `name`/`ty` are
`none` when the raw text is not valid unicode.  `inputs` lists, per input
slot, the producing operation's index and output slot; `outputConsumers`
lists, per output slot, the consuming operations' indices and input slots;
the control lists hold operation indices. -/
structure RawOp where
  name : Option (List String)
  ty : Option String
  inputs : List (Nat × Nat)
  outputConsumers : List (List (Nat × Nat))
  controlInputs : List Nat
  controlOutputs : List Nat
deriving DecidableEq

/-- `Node::from_operation`: take the operation's name (as its path-component
list) and type; `none` models the `expect` panic that aborts the run on
invalid unicode. -/
def Node.from_operation (op : RawOp) : Option Node :=
  match op.name, op.ty with
  | some name, some ty => some { name := name, ty := ty }
  | _, _ => none

/-- `Node::limit_depth`: pop the last path component once for each number in
`max_depth..depth`, and force the type to `"Block"` when `max_depth < depth`. -/
def Node.limit_depth (self : Node) (max_depth : Nat) : Node :=
  let depth := self.name.length
  { name := (List.range (depth - max_depth)).foldl (fun acc _ => acc.dropLast) self.name
    ty := if max_depth < depth then "Block" else self.ty }

/-- `Node::from_operation_with_depth`. -/
def Node.from_operation_with_depth (op : RawOp) (max_depth : Nat) : Option Node :=
  (Node.from_operation op).map (fun ret => ret.limit_depth max_depth)

/-- The `max_depth.as_ref().map_or_else(..)` dispatch used in `add_op_to_graph`. -/
def resolveNode (max_depth : Option Nat) (op : RawOp) : Option Node :=
  match max_depth with
  | none => Node.from_operation op
  | some index => Node.from_operation_with_depth op index

/-- `petgraph::graph::Graph<Node, Edge>`: nodes indexed by position, edges as
(source index, target index, weight) in insertion order. -/
structure PGraph where
  nodes : List Node
  edges : List (Nat × Nat × Edge)
deriving DecidableEq

def PGraph.add_node (g : PGraph) (n : Node) : PGraph × Nat :=
  ({ g with nodes := g.nodes ++ [n] }, g.nodes.length)

/-- `Graph::find_edge(a, b)`: the first edge from `a` to `b`, if any. -/
def PGraph.find_edge (g : PGraph) (a b : Nat) : Option (Nat × Nat × Edge) :=
  g.edges.find? (fun e => decide (e.1 = a) && decide (e.2.1 = b))

def PGraph.add_edge (g : PGraph) (a b : Nat) (e : Edge) : PGraph :=
  { g with edges := g.edges ++ [(a, b, e)] }

/-- The builder state: the petgraph graph plus the `HashMap<Node, NodeIndex>`
(called `nodes` in the source). -/
structure BuildState where
  graph : PGraph
  nodes : List (Node × Nat)
deriving DecidableEq

/-- `nodes.entry(n).or_insert_with(|| graph.add_node(n))`. -/
def BuildState.getOrInsert (st : BuildState) (n : Node) : BuildState × Nat :=
  match st.nodes.find? (fun p => decide (p.1 = n)) with
  | some p => (st, p.2)
  | none =>
    let r := st.graph.add_node n
    ({ graph := r.1, nodes := st.nodes ++ [(n, r.2)] }, r.2)

/-- `add_op_to_graph`: resolve both endpoints (`none` on invalid text aborts),
dedup-insert them, then add the edge `out → in` unless it would be a
self-loop or the ordered pair is already connected. -/
def add_op_to_graph (input : RawOp × Option Nat) (output : RawOp × Option Nat)
    (st : BuildState) (max_depth : Option Nat) : Option BuildState :=
  match resolveNode max_depth input.1 with
  | none => none
  | some in_node =>
    let r1 := st.getOrInsert in_node
    match resolveNode max_depth output.1 with
    | none => none
    | some out_node =>
      let r2 := r1.1.getOrInsert out_node
      if in_node ≠ out_node ∧ r2.1.graph.find_edge r2.2 r1.2 = none then
        some { r2.1 with
               graph := r2.1.graph.add_edge r2.2 r1.2
                 { dim := [], input_index := input.2, output_index := output.2 } }
      else
        some r2.1

/-- Out-of-range operation references resolve to an operation whose raw text
is invalid, so a dangling reference can never silently succeed. -/
def defaultRawOp : RawOp :=
  { name := none, ty := none, inputs := [], outputConsumers := [],
    controlInputs := [], controlOutputs := [] }

def opAt (ops : List RawOp) (j : Nat) : RawOp := ops.getD j defaultRawOp

/-- The body of `generate_graph`'s per-operation loop: the four relationship
passes, each calling `add_op_to_graph` exactly as the source does. -/
def processOp (ops : List RawOp) (max_depth : Option Nat) (st : BuildState) (op : RawOp) :
    Option BuildState :=
  (op.inputs.enum.foldlM
      (fun st p => add_op_to_graph (op, some p.1) (opAt ops p.2.1, some p.2.2) st max_depth)
      st).bind (fun st =>
  (op.outputConsumers.enum.foldlM
      (fun st (p : Nat × List (Nat × Nat)) => p.2.foldlM
        (fun st c => add_op_to_graph (opAt ops c.1, some c.2) (op, some p.1) st max_depth)
        st)
      st).bind (fun st =>
  (op.controlOutputs.foldlM
      (fun st j => add_op_to_graph (opAt ops j, none) (op, none) st max_depth)
      st).bind (fun st =>
  op.controlInputs.foldlM
      (fun st j => add_op_to_graph (op, none) (opAt ops j, none) st max_depth)
      st)))

def initState : BuildState := { graph := { nodes := [], edges := [] }, nodes := [] }

/-- `generate_graph`: fold the per-operation passes over the operation list,
starting from the empty graph and empty identity map. -/
def generate_graph (ops : List RawOp) (max_depth : Option Nat) : Option PGraph :=
  (ops.foldlM (processOp ops max_depth) initState).map (fun st => st.graph)

/-! ## Derived notions used by the statements -/

def dfltNode : Node := { name := [], ty := "" }

/-- The (source node value, target node value) pair of every edge, in edge
order. -/
def edgeEndpoints (g : PGraph) : List (Node × Node) :=
  g.edges.map (fun e => (g.nodes.getD e.1 dfltNode, g.nodes.getD e.2.1 dfltNode))

/-- All edges between the ordered index pair `(s, t)`. -/
def edgesBetween (g : PGraph) (s t : Nat) : List (Nat × Nat × Edge) :=
  g.edges.filter (fun e => decide (e.1 = s) && decide (e.2.1 = t))

/-- Whether the graph has an edge from a node valued `s` to a node valued `t`. -/
def edgeFromTo (g : PGraph) (s t : Node) : Bool :=
  g.edges.any (fun e =>
    decide (g.nodes.getD e.1 dfltNode = s) && decide (g.nodes.getD e.2.1 dfltNode = t))

/-- Resolution of this operation succeeds (its raw name and type are valid
text). -/
def opResolvable (op : RawOp) : Bool :=
  op.name.isSome && op.ty.isSome

/-- A call `add_op_to_graph` with these two endpoint operations aborts. -/
def addFails (x y : RawOp) : Bool :=
  !opResolvable x || !opResolvable y

/-- Some relationship processed for `op` has an endpoint whose raw text is
invalid, so the per-operation pass over `op` aborts the run. -/
def opStepFails (ops : List RawOp) (op : RawOp) : Bool :=
  op.inputs.any (fun p => addFails op (opAt ops p.1)) ||
  op.outputConsumers.any (fun l => l.any (fun c => addFails (opAt ops c.1) op)) ||
  op.controlOutputs.any (fun j => addFails (opAt ops j) op) ||
  op.controlInputs.any (fun j => addFails op (opAt ops j))

/-! ## Concrete data used by witnesses and counterexamples -/

/-- Scenario A of the spec: `a`/Const feeding `b`/Add at slots 0/0. -/
def exOpsA : List RawOp :=
  [{ name := some ["a"], ty := some "Const", inputs := [], outputConsumers := [],
     controlInputs := [], controlOutputs := [] },
   { name := some ["b"], ty := some "Add", inputs := [(0, 0)], outputConsumers := [],
     controlInputs := [], controlOutputs := [] }]

/-- The graph the builder produces for `exOpsA`. -/
def exGraphA : PGraph :=
  { nodes := [{ name := ["b"], ty := "Add" }, { name := ["a"], ty := "Const" }],
    edges := [(1, 0, { dim := [], input_index := some 0, output_index := some 0 })] }

/-- A Const operation named `a`, used by the C5 witness. -/
def opA5 : RawOp :=
  { name := some ["a"], ty := some "Const", inputs := [], outputConsumers := [],
    controlInputs := [], controlOutputs := [] }

/-- A Relu operation named `c`, used by the C5 witness. -/
def opC5 : RawOp :=
  { name := some ["c"], ty := some "Relu", inputs := [], outputConsumers := [],
    controlInputs := [], controlOutputs := [] }

/-- A builder state that already connects the ordered pair `(0, 1)`. -/
def stC5 : BuildState :=
  { graph := { nodes := [{ name := ["a"], ty := "Const" }, { name := ["b"], ty := "Add" }],
               edges := [(0, 1, { dim := [], input_index := some 0, output_index := some 0 })] },
    nodes := [({ name := ["a"], ty := "Const" }, 0), ({ name := ["b"], ty := "Add" }, 1)] }

/-- The state `add_op_to_graph (opC5, some 2) (opA5, some 3)` turns `stC5` into. -/
def stC5' : BuildState :=
  { graph := { nodes := [{ name := ["a"], ty := "Const" }, { name := ["b"], ty := "Add" },
                         { name := ["c"], ty := "Relu" }],
               edges := [(0, 1, { dim := [], input_index := some 0, output_index := some 0 }),
                         (0, 2, { dim := [], input_index := some 2, output_index := some 3 })] },
    nodes := [({ name := ["a"], ty := "Const" }, 0), ({ name := ["b"], ty := "Add" }, 1),
              ({ name := ["c"], ty := "Relu" }, 2)] }

/-- Scenario for C6: `a`/Const whose output slot 0 is consumed by operation 1
(`b`/Add) at its input slot 0, discovered through the output-consumer list. -/
def exOpsC6 : List RawOp :=
  [{ name := some ["a"], ty := some "Const", inputs := [], outputConsumers := [[(1, 0)]],
     controlInputs := [], controlOutputs := [] },
   { name := some ["b"], ty := some "Add", inputs := [], outputConsumers := [],
     controlInputs := [], controlOutputs := [] }]

/-- The builder state after the one consumer-pass call of `exOpsC6`. -/
def stC6res : BuildState :=
  { graph := exGraphA,
    nodes := [({ name := ["b"], ty := "Add" }, 0), ({ name := ["a"], ty := "Const" }, 1)] }

/-- Scenario C of the spec: `b`/NoOp lists `a`/NoOp as a control input. -/
def exOpsC7 : List RawOp :=
  [{ name := some ["b"], ty := some "NoOp", inputs := [], outputConsumers := [],
     controlInputs := [1], controlOutputs := [] },
   { name := some ["a"], ty := some "NoOp", inputs := [], outputConsumers := [],
     controlInputs := [], controlOutputs := [] }]

/-- The graph the builder produces for `exOpsC7`. -/
def gC7 : PGraph :=
  { nodes := [{ name := ["b"], ty := "NoOp" }, { name := ["a"], ty := "NoOp" }],
    edges := [(1, 0, { dim := [], input_index := none, output_index := none })] }

/-- The builder state after the one control-input call of `exOpsC7`. -/
def stC7res : BuildState :=
  { graph := gC7,
    nodes := [({ name := ["b"], ty := "NoOp" }, 0), ({ name := ["a"], ty := "NoOp" }, 1)] }

/-- A single operation with an invalid name that participates in no
relationship: nothing ever resolves it. -/
def exOpsC8iso : List RawOp :=
  [{ name := none, ty := some "Const", inputs := [], outputConsumers := [],
     controlInputs := [], controlOutputs := [] }]

/-- Operation 0 takes a data input from operation 1, whose name is invalid. -/
def exOpsC8ref : List RawOp :=
  [{ name := some ["x"], ty := some "T", inputs := [(1, 0)], outputConsumers := [],
     controlInputs := [], controlOutputs := [] },
   { name := none, ty := some "U", inputs := [], outputConsumers := [],
     controlInputs := [], controlOutputs := [] }]

/-- The node every deep-named operation collapses to under `max_depth = 0`. -/
def blockNode : Node := { name := [], ty := "Block" }

/-- An operation with two output slots but no relationships at all. -/
def opIso : RawOp :=
  { name := some ["z"], ty := some "NoOp", inputs := [], outputConsumers := [[], []],
    controlInputs := [], controlOutputs := [] }

/-- The graph `exOpsA` collapses to under `max_depth = 0`. -/
def gC10 : PGraph := { nodes := [blockNode], edges := [] }

/-- All nodes of the state are the collapsed block node and no edge exists. -/
def AllBlock (st : BuildState) : Prop :=
  (∀ n ∈ st.graph.nodes, n = blockNode) ∧ st.graph.edges = []

/-! ## Construction invariants -/

/-- Every identity-map entry points at the graph slot holding its node. -/
def MapSound (st : BuildState) : Prop :=
  ∀ p ∈ st.nodes, st.graph.nodes[p.2]? = some p.1

/-- Every node value of the graph has an identity-map entry. -/
def MapComplete (st : BuildState) : Prop :=
  ∀ n ∈ st.graph.nodes, ∃ p ∈ st.nodes, p.1 = n

/-- Edges connect valid, distinct node slots, at most one edge per ordered
index pair. -/
def EdgeOk (g : PGraph) : Prop :=
  (g.edges.map (fun e => (e.1, e.2.1))).Nodup ∧
  ∀ e ∈ g.edges, e.1 < g.nodes.length ∧ e.2.1 < g.nodes.length ∧
    g.nodes[e.1]? ≠ g.nodes[e.2.1]?

def StInv (st : BuildState) : Prop :=
  MapSound st ∧ MapComplete st ∧ st.graph.nodes.Nodup ∧ EdgeOk st.graph

instance (st : BuildState) : Decidable (StInv st) := by
  unfold StInv MapSound MapComplete EdgeOk
  infer_instance

/-! ## The node identity resolver -/

lemma foldl_dropLast_range {α : Type} (k : Nat) (l : List α) :
    (List.range k).foldl (fun acc _ => acc.dropLast) l = l.take (l.length - k) := by
  induction k with
  | zero => simp
  | succ k ih =>
    rw [List.range_succ, List.foldl_append, ih]
    simp only [List.foldl_cons, List.foldl_nil]
    rw [List.dropLast_eq_take, List.take_take, List.length_take]
    congr 1
    omega

lemma Node.limit_depth_of_lt (n : Node) (D : Nat) (h : D < n.name.length) :
    n.limit_depth D = { name := n.name.take D, ty := "Block" } := by
  simp only [Node.limit_depth]
  rw [foldl_dropLast_range, Nat.sub_sub_self h.le, if_pos h]

lemma Node.limit_depth_of_le (n : Node) (D : Nat) (h : n.name.length ≤ D) :
    n.limit_depth D = n := by
  simp only [Node.limit_depth]
  rw [Nat.sub_eq_zero_of_le h]
  simp [Nat.not_lt.2 h]

lemma from_operation_eq (op : RawOp) (ns : List String) (t : String)
    (hn : op.name = some ns) (ht : op.ty = some t) :
    Node.from_operation op = some { name := ns, ty := t } := by
  simp [Node.from_operation, hn, ht]

/-- Claim C1: resolving an operation with depth limit `D`: when the name has
`k > D` segments, the resolved node's name is the first `D` segments of the
original name and its type is `"Block"`; when `k ≤ D` the node keeps the
full name and the operation's declared type. -/
theorem claim1_depth_limited_resolution (op : RawOp) (D : Nat) (ns : List String) (t : String)
    (hn : op.name = some ns) (ht : op.ty = some t) :
    (D < ns.length →
      Node.from_operation_with_depth op D = some { name := ns.take D, ty := "Block" }) ∧
    (ns.length ≤ D →
      Node.from_operation_with_depth op D = some { name := ns, ty := t }) := by
  have hbase := from_operation_eq op ns t hn ht
  refine ⟨fun h => ?_, fun h => ?_⟩
  · simp only [Node.from_operation_with_depth, hbase, Option.map_some']
    rw [Node.limit_depth_of_lt _ _ h]
  · simp only [Node.from_operation_with_depth, hbase, Option.map_some']
    rw [Node.limit_depth_of_le _ _ h]

/-- Witness for C1: a three-segment name truncated at depth 2, kept at depth 3. -/
theorem claim1_witness :
    Node.from_operation_with_depth
      { name := some ["x", "y", "z"], ty := some "MatMul", inputs := [], outputConsumers := [],
        controlInputs := [], controlOutputs := [] } 2 =
      some { name := ["x", "y"], ty := "Block" } ∧
    Node.from_operation_with_depth
      { name := some ["x", "y", "z"], ty := some "MatMul", inputs := [], outputConsumers := [],
        controlInputs := [], controlOutputs := [] } 3 =
      some { name := ["x", "y", "z"], ty := "MatMul" } :=
  ⟨(claim1_depth_limited_resolution _ 2 ["x", "y", "z"] "MatMul" rfl rfl).1 (by decide),
   (claim1_depth_limited_resolution _ 3 ["x", "y", "z"] "MatMul" rfl rfl).2 (by decide)⟩

/-! ## Properties of node insertion -/

lemma lt_of_getElem?_some {α : Type} {l : List α} {i : Nat} {x : α} (h : l[i]? = some x) :
    i < l.length := by
  by_contra hlt
  rw [List.getElem?_eq_none (by omega)] at h
  cases h

lemma getElem?_append_lt {α : Type} {l l' : List α} {i : Nat} (h : i < l.length) :
    (l ++ l')[i]? = l[i]? := by
  rw [List.getElem?_append]
  exact if_pos h

lemma getD_eq_of_some {l : List Node} {i : Nat} {x : Node} (h : l[i]? = some x) :
    l.getD i dfltNode = x := by
  have hlt := lt_of_getElem?_some h
  rw [List.getD_eq_getElem _ _ hlt]
  rw [List.getElem?_eq_getElem hlt] at h
  exact Option.some.inj h

lemma getOrInsert_spec {st : BuildState} {n : Node} {st' : BuildState} {idx : Nat}
    (hInv : StInv st) (h : st.getOrInsert n = (st', idx)) :
    StInv st' ∧ st'.graph.edges = st.graph.edges ∧
    (st'.graph.nodes = st.graph.nodes ∨ st'.graph.nodes = st.graph.nodes ++ [n]) ∧
    st'.graph.nodes[idx]? = some n := by
  obtain ⟨hS, hC, hND, hE⟩ := hInv
  rw [BuildState.getOrInsert] at h
  cases hf : st.nodes.find? (fun p => decide (p.1 = n)) with
  | some p =>
    rw [hf] at h
    have hp1 : p.1 = n := by simpa using List.find?_some hf
    have hmem := List.mem_of_find?_eq_some hf
    have hget : st.graph.nodes[p.2]? = some n := hp1 ▸ hS p hmem
    have h' : (st, p.2) = (st', idx) := h
    injection h' with h1 h2
    subst h1
    subst h2
    exact ⟨⟨hS, hC, hND, hE⟩, rfl, Or.inl rfl, hget⟩
  | none =>
    rw [hf] at h
    have hnot : n ∉ st.graph.nodes := by
      intro hmem
      obtain ⟨p, hp, hp1⟩ := hC n hmem
      have := List.find?_eq_none.mp hf p hp
      simp [hp1] at this
    have h' : (({ graph := { nodes := st.graph.nodes ++ [n], edges := st.graph.edges },
                  nodes := st.nodes ++ [(n, st.graph.nodes.length)] } : BuildState),
        st.graph.nodes.length) = (st', idx) := h
    injection h' with h1 h2
    subst h1
    subst h2
    refine ⟨⟨?_, ?_, ?_, ?_, ?_⟩, rfl, Or.inr rfl, List.getElem?_concat_length _ _⟩
    · intro p hp
      rcases List.mem_append.mp hp with hp | hp
      · have hg := hS p hp
        exact (getElem?_append_lt (lt_of_getElem?_some hg)).trans hg
      · rw [List.mem_singleton.mp hp]
        exact List.getElem?_concat_length _ _
    · intro m hm
      rcases List.mem_append.mp hm with hm | hm
      · obtain ⟨p, hp, hp1⟩ := hC m hm
        exact ⟨p, List.mem_append_left _ hp, hp1⟩
      · exact ⟨(n, st.graph.nodes.length), List.mem_append_right _ (List.mem_singleton.mpr rfl),
          (List.mem_singleton.mp hm).symm⟩
    · rw [List.nodup_append]
      refine ⟨hND, List.nodup_singleton n, ?_⟩
      intro a ha hb
      rw [List.mem_singleton.mp hb] at ha
      exact hnot ha
    · exact hE.1
    · intro e he
      obtain ⟨h1, h2, hne⟩ := hE.2 e he
      rw [List.length_append, getElem?_append_lt h1, getElem?_append_lt h2]
      exact ⟨by omega, by omega, hne⟩

/-! ## Anatomy of `add_op_to_graph` -/

lemma add_op_to_graph_eq {inp outp : RawOp × Option Nat} {st : BuildState} {d : Option Nat}
    {st' : BuildState} (h : add_op_to_graph inp outp st d = some st') :
    ∃ inN outN st1 in_idx st2 out_idx,
      resolveNode d inp.1 = some inN ∧
      resolveNode d outp.1 = some outN ∧
      st.getOrInsert inN = (st1, in_idx) ∧
      st1.getOrInsert outN = (st2, out_idx) ∧
      ((inN ≠ outN ∧ st2.graph.find_edge out_idx in_idx = none ∧
          st' = { st2 with graph := st2.graph.add_edge out_idx in_idx
                             { dim := [], input_index := inp.2, output_index := outp.2 } }) ∨
        (¬(inN ≠ outN ∧ st2.graph.find_edge out_idx in_idx = none) ∧ st' = st2)) := by
  rw [add_op_to_graph] at h
  cases hres1 : resolveNode d inp.1 with
  | none =>
    rw [hres1] at h
    exact Option.noConfusion h
  | some inN =>
    cases hres2 : resolveNode d outp.1 with
    | none =>
      rw [hres1, hres2] at h
      exact Option.noConfusion h
    | some outN =>
      simp only [hres1, hres2] at h
      split_ifs at h with hc
      · cases h
        exact ⟨inN, outN, _, _, _, _, rfl, rfl, rfl, rfl, Or.inl ⟨hc.1, hc.2, rfl⟩⟩
      · cases h
        exact ⟨inN, outN, _, _, _, _, rfl, rfl, rfl, rfl, Or.inr ⟨hc, rfl⟩⟩

lemma add_op_to_graph_Inv {inp outp : RawOp × Option Nat} {st : BuildState} {d : Option Nat}
    {st' : BuildState} (hInv : StInv st) (h : add_op_to_graph inp outp st d = some st') :
    StInv st' := by
  obtain ⟨inN, outN, st1, in_idx, st2, out_idx, hr1, hr2, hg1, hg2, hcase⟩ :=
    add_op_to_graph_eq h
  obtain ⟨hInv1, hE1, hN1, hget1⟩ := getOrInsert_spec hInv hg1
  obtain ⟨hInv2, hE2, hN2, hget2⟩ := getOrInsert_spec hInv1 hg2
  have hget1' : st2.graph.nodes[in_idx]? = some inN := by
    rcases hN2 with heq | heq
    · rw [heq]
      exact hget1
    · rw [heq, getElem?_append_lt (lt_of_getElem?_some hget1)]
      exact hget1
  rcases hcase with ⟨hne, hfe, rfl⟩ | ⟨_, rfl⟩
  · obtain ⟨hS2, hC2, hND2, hP2, hV2⟩ := hInv2
    rw [PGraph.find_edge] at hfe
    have hpair : (out_idx, in_idx) ∉ st2.graph.edges.map (fun e => (e.1, e.2.1)) := by
      intro hmem
      obtain ⟨e, he, heq⟩ := List.mem_map.mp hmem
      have hfe' := List.find?_eq_none.mp hfe e he
      rw [Prod.mk.injEq] at heq
      simp [heq.1, heq.2] at hfe'
    refine ⟨hS2, hC2, hND2, ?_, ?_⟩
    · rw [PGraph.add_edge]
      simp only [List.map_append, List.nodup_append]
      refine ⟨hP2, by simp, ?_⟩
      intro a ha hb
      simp only [List.map_cons, List.map_nil, List.mem_singleton] at hb
      rw [hb] at ha
      exact hpair ha
    · intro e he
      rcases List.mem_append.mp he with he | he
      · exact hV2 e he
      · have he' := List.mem_singleton.mp he
        subst he'
        refine ⟨?_, ?_, ?_⟩
        · show out_idx < st2.graph.nodes.length
          exact lt_of_getElem?_some hget2
        · show in_idx < st2.graph.nodes.length
          exact lt_of_getElem?_some hget1'
        · show st2.graph.nodes[out_idx]? ≠ st2.graph.nodes[in_idx]?
          rw [hget2, hget1']
          intro hx
          exact hne (Option.some.inj hx).symm
  · exact hInv2

/-! ## Folding the passes -/

lemma foldlM_pres {α : Type} {P : BuildState → Prop} {f : BuildState → α → Option BuildState}
    (l : List α)
    (hf : ∀ s a s', a ∈ l → P s → f s a = some s' → P s') :
    ∀ {s s'}, P s → l.foldlM f s = some s' → P s' := by
  induction l with
  | nil =>
    intro s s' hP h
    rw [List.foldlM_nil] at h
    cases h
    exact hP
  | cons a t ih =>
    intro s s' hP h
    rw [List.foldlM_cons] at h
    cases hfa : f s a with
    | none =>
      rw [hfa] at h
      exact Option.noConfusion h
    | some s1 =>
      rw [hfa] at h
      exact ih (fun s a' s'' ha => hf s a' s'' (List.mem_cons_of_mem _ ha))
        (hf s a s1 (List.mem_cons_self _ _) hP hfa) h

lemma processOp_Inv {ops : List RawOp} {d : Option Nat} {st : BuildState} {op : RawOp}
    {st' : BuildState} (hInv : StInv st) (h : processOp ops d st op = some st') : StInv st' := by
  rw [processOp] at h
  rw [Option.bind_eq_some] at h
  obtain ⟨s1, hs1, h⟩ := h
  rw [Option.bind_eq_some] at h
  obtain ⟨s2, hs2, h⟩ := h
  rw [Option.bind_eq_some] at h
  obtain ⟨s3, hs3, h⟩ := h
  have h1 : StInv s1 :=
    foldlM_pres _ (fun s a s'' _ hP hs => add_op_to_graph_Inv hP hs) hInv hs1
  have h2 : StInv s2 := by
    refine foldlM_pres _ ?_ h1 hs2
    intro s p s'' _ hP hs
    exact foldlM_pres _ (fun s a s''' _ hQ hq => add_op_to_graph_Inv hQ hq) hP hs
  have h3 : StInv s3 :=
    foldlM_pres _ (fun s a s'' _ hP hs => add_op_to_graph_Inv hP hs) h2 hs3
  exact foldlM_pres _ (fun s a s'' _ hP hs => add_op_to_graph_Inv hP hs) h3 h

lemma StInv_init : StInv initState := by
  refine ⟨?_, ?_, ?_, ?_, ?_⟩ <;> simp [MapSound, MapComplete, EdgeOk, initState]

lemma generate_graph_inv {ops : List RawOp} {d : Option Nat} {g : PGraph}
    (h : generate_graph ops d = some g) : ∃ st, StInv st ∧ st.graph = g := by
  rw [generate_graph] at h
  cases hf : ops.foldlM (processOp ops d) initState with
  | none =>
    rw [hf] at h
    exact Option.noConfusion h
  | some st =>
    rw [hf] at h
    refine ⟨st, ?_, Option.some.inj h⟩
    exact foldlM_pres _ (fun s a s'' _ hP hs => processOp_Inv hP hs) StInv_init hf

/-! ## Claims C2, C3, C4: node uniqueness, edge uniqueness, no self-loops -/

/-- Claim C2: after the construction pass over any operation sequence, no two
distinct graph indices hold equal `Node` values — one node per distinct
`(name, type)` identity produced by the resolver. -/
theorem claim2_node_uniqueness (ops : List RawOp) (d : Option Nat) (g : PGraph)
    (h : generate_graph ops d = some g) : g.nodes.Nodup := by
  obtain ⟨st, hInv, rfl⟩ := generate_graph_inv h
  exact hInv.2.2.1

/-- Witness for C2: the scenario-A run. -/
theorem claim2_witness : exGraphA.nodes.Nodup :=
  claim2_node_uniqueness exOpsA none exGraphA (by decide)

lemma nodup_getD_inj {l : List Node} (hnd : l.Nodup) {i j : Nat} (hi : i < l.length)
    (hj : j < l.length) (h : l.getD i dfltNode = l.getD j dfltNode) : i = j := by
  rw [List.getD_eq_getElem _ _ hi, List.getD_eq_getElem _ _ hj] at h
  exact (List.Nodup.getElem_inj_iff hnd).mp h

lemma edgeEndpoints_nodup {g : PGraph} (hnd : g.nodes.Nodup) (hE : EdgeOk g) :
    (edgeEndpoints g).Nodup := by
  have hrw : edgeEndpoints g =
      (g.edges.map (fun e => (e.1, e.2.1))).map
        (fun p => (g.nodes.getD p.1 dfltNode, g.nodes.getD p.2 dfltNode)) := by
    rw [edgeEndpoints, List.map_map]
    rfl
  rw [hrw]
  refine List.Nodup.map_on ?_ hE.1
  intro x hx y hy hxy
  obtain ⟨ex, hex, hexq⟩ := List.mem_map.mp hx
  obtain ⟨ey, hey, heyq⟩ := List.mem_map.mp hy
  obtain ⟨hx1, hx2, _⟩ := hE.2 ex hex
  obtain ⟨hy1, hy2, _⟩ := hE.2 ey hey
  subst hexq
  subst heyq
  rw [Prod.mk.injEq] at hxy
  rw [Prod.mk.injEq]
  exact ⟨nodup_getD_inj hnd hx1 hy1 hxy.1, nodup_getD_inj hnd hx2 hy2 hxy.2⟩

lemma nodup_filter_eq_le_one {α : Type} [DecidableEq α] {l : List α} (h : l.Nodup) (x : α) :
    (l.filter (fun y => decide (y = x))).length ≤ 1 := by
  have := List.nodup_iff_count_le_one.mp h x
  rw [List.count, List.countP_eq_length_filter] at this
  exact this

/-- Claim C3: for every ordered pair of node values, the constructed graph
holds at most one edge between them. -/
theorem claim3_edge_uniqueness (ops : List RawOp) (d : Option Nat) (g : PGraph)
    (h : generate_graph ops d = some g) :
    ∀ s t : Node,
      ((edgeEndpoints g).filter (fun p => decide (p = (s, t)))).length ≤ 1 := by
  obtain ⟨st, hInv, rfl⟩ := generate_graph_inv h
  intro s t
  exact nodup_filter_eq_le_one (edgeEndpoints_nodup hInv.2.2.1 hInv.2.2.2) (s, t)

/-- Witness for C3: the scenario-A run, at its one connected pair. -/
theorem claim3_witness :
    ((edgeEndpoints exGraphA).filter (fun p => decide
      (p = ({ name := ["a"], ty := "Const" }, { name := ["b"], ty := "Add" })))).length ≤ 1 :=
  claim3_edge_uniqueness exOpsA none exGraphA (by decide) _ _

/-- Claim C4: the constructed graph has no self-loop — every edge's resolved
source node differs from its resolved target node. -/
theorem claim4_no_self_loops (ops : List RawOp) (d : Option Nat) (g : PGraph)
    (h : generate_graph ops d = some g) :
    ∀ p ∈ edgeEndpoints g, p.1 ≠ p.2 := by
  obtain ⟨st, hInv, rfl⟩ := generate_graph_inv h
  intro p hp
  rw [edgeEndpoints] at hp
  obtain ⟨e, he, rfl⟩ := List.mem_map.mp hp
  obtain ⟨h1, h2, hne⟩ := hInv.2.2.2.2 e he
  show st.graph.nodes.getD e.1 dfltNode ≠ st.graph.nodes.getD e.2.1 dfltNode
  intro heq
  apply hne
  rw [List.getD_eq_getElem _ _ h1, List.getD_eq_getElem _ _ h2] at heq
  rw [List.getElem?_eq_getElem h1, List.getElem?_eq_getElem h2]
  exact congrArg some heq

/-- Witness for C4: the scenario-A run, at its one edge. -/
theorem claim4_witness :
    ({ name := ["a"], ty := "Const" } : Node) ≠ { name := ["b"], ty := "Add" } :=
  claim4_no_self_loops exOpsA none exGraphA (by decide)
    ({ name := ["a"], ty := "Const" }, { name := ["b"], ty := "Add" }) (by decide)

/-! ## Claim C5: a second relationship between a connected pair is dropped -/

lemma getOrInsert_edges {st : BuildState} {n : Node} {st' : BuildState} {idx : Nat}
    (h : st.getOrInsert n = (st', idx)) : st'.graph.edges = st.graph.edges := by
  rw [BuildState.getOrInsert] at h
  cases hf : st.nodes.find? (fun p => decide (p.1 = n)) with
  | some p =>
    rw [hf] at h
    have h' : (st, p.2) = (st', idx) := h
    injection h' with h1 h2
    rw [← h1]
  | none =>
    rw [hf] at h
    have h' : (({ graph := { nodes := st.graph.nodes ++ [n], edges := st.graph.edges },
                  nodes := st.nodes ++ [(n, st.graph.nodes.length)] } : BuildState),
        st.graph.nodes.length) = (st', idx) := h
    injection h' with h1 h2
    rw [← h1]

/-- Claim C5: when `add_op_to_graph` runs while an ordered node pair is
already connected, the edge set between that pair is left exactly as it was —
the first edge keeps its `input_index`, `output_index` and `dim`, and the
later relationship is dropped. -/
theorem claim5_first_edge_wins (inp outp : RawOp × Option Nat) (st : BuildState)
    (d : Option Nat) (st' : BuildState) (h : add_op_to_graph inp outp st d = some st') :
    ∀ s t : Nat, st.graph.find_edge s t ≠ none →
      edgesBetween st'.graph s t = edgesBetween st.graph s t := by
  obtain ⟨inN, outN, st1, in_idx, st2, out_idx, hr1, hr2, hg1, hg2, hcase⟩ :=
    add_op_to_graph_eq h
  have hEeq : st2.graph.edges = st.graph.edges :=
    (getOrInsert_edges hg2).trans (getOrInsert_edges hg1)
  intro s t hconn
  rcases hcase with ⟨hne, hfe, heq⟩ | ⟨_, heq⟩
  · have hpairne : ¬(out_idx = s ∧ in_idx = t) := by
      rintro ⟨rfl, rfl⟩
      apply hconn
      rw [PGraph.find_edge] at hfe ⊢
      rw [← hEeq]
      exact hfe
    have hedges : st'.graph.edges = st.graph.edges ++
        [(out_idx, in_idx, { dim := [], input_index := inp.2, output_index := outp.2 })] := by
      rw [heq]
      show st2.graph.edges ++ _ = _
      rw [hEeq]
    have hb : (decide (out_idx = s) && decide (in_idx = t)) = false := by
      by_contra hbc
      rw [Bool.not_eq_false, Bool.and_eq_true, decide_eq_true_eq, decide_eq_true_eq] at hbc
      exact hpairne hbc
    rw [edgesBetween, edgesBetween, hedges, List.filter_append, List.filter_cons]
    rw [hb]
    simp
  · rw [edgesBetween, edgesBetween, heq, hEeq]

/-- Witness for C5: adding a fresh relationship while `(0, 1)` is connected
leaves the `(0, 1)` edge set untouched. -/
theorem claim5_witness :
    edgesBetween stC5'.graph 0 1 = edgesBetween stC5.graph 0 1 :=
  claim5_first_edge_wins (opC5, some 2) (opA5, some 3) stC5 none stC5'
    (by decide) 0 1 (by decide)

/-! ## Claims C6, C7: the direction of consumer-pass and control edges -/

/-- Any edge a successful `add_op_to_graph` call adds carries the call's two
slot tags, runs from the slot holding the resolved `output` operation's node
and ends at the slot holding the resolved `input` operation's node. -/
lemma add_op_to_graph_new_edge {inp outp : RawOp × Option Nat} {st : BuildState}
    {d : Option Nat} {st' : BuildState} {inN outN : Node} (hInv : StInv st)
    (hin : resolveNode d inp.1 = some inN) (hout : resolveNode d outp.1 = some outN)
    (h : add_op_to_graph inp outp st d = some st') :
    ∀ e ∈ st'.graph.edges, e ∉ st.graph.edges →
      e.2.2 = { dim := [], input_index := inp.2, output_index := outp.2 } ∧
      st'.graph.nodes[e.1]? = some outN ∧ st'.graph.nodes[e.2.1]? = some inN := by
  obtain ⟨inN', outN', st1, in_idx, st2, out_idx, hr1, hr2, hg1, hg2, hcase⟩ :=
    add_op_to_graph_eq h
  have e1 : inN = inN' := Option.some.inj (hin.symm.trans hr1)
  have e2 : outN = outN' := Option.some.inj (hout.symm.trans hr2)
  subst e1
  subst e2
  obtain ⟨hInv1, hE1, hN1, hget1⟩ := getOrInsert_spec hInv hg1
  obtain ⟨hInv2, hE2, hN2, hget2⟩ := getOrInsert_spec hInv1 hg2
  have hget1' : st2.graph.nodes[in_idx]? = some inN := by
    rcases hN2 with heq | heq
    · rw [heq]
      exact hget1
    · rw [heq, getElem?_append_lt (lt_of_getElem?_some hget1)]
      exact hget1
  have hEold : st2.graph.edges = st.graph.edges :=
    (getOrInsert_edges hg2).trans (getOrInsert_edges hg1)
  intro e he hnotold
  rcases hcase with ⟨hdiff, hfe, heq⟩ | ⟨_, heq⟩
  · rw [heq] at he
    have he' : e ∈ st2.graph.edges ++ [(out_idx, in_idx,
        ({ dim := [], input_index := inp.2, output_index := outp.2 } : Edge))] := he
    rcases List.mem_append.mp he' with hold | hnew
    · rw [hEold] at hold
      exact absurd hold hnotold
    · have hee := List.mem_singleton.mp hnew
      subst hee
      refine ⟨rfl, ?_, ?_⟩
      · rw [heq]
        show st2.graph.nodes[out_idx]? = some outN
        exact hget2
      · rw [heq]
        show st2.graph.nodes[in_idx]? = some inN
        exact hget1'
  · rw [heq] at he
    have he' : e ∈ st2.graph.edges := he
    rw [hEold] at he'
    exact absurd he' hnotold

/-- Claim C6 (amended): the data-output-consumer pass invokes the helper as
`add_op_to_graph (consumer, some consumerSlot) (op, some i)` (see
`processOp`); any edge this call adds goes from the resolved operation node
to the resolved consumer node — not the other way round — tagged
`input_index =` the consumer's input slot and `output_index = i`. -/
theorem claim6_consumer_pass_edge (consumer op : RawOp) (cslot i : Nat) (st : BuildState)
    (d : Option Nat) (st' : BuildState) (cN oN : Node) (hInv : StInv st)
    (hc : resolveNode d consumer = some cN) (ho : resolveNode d op = some oN)
    (h : add_op_to_graph (consumer, some cslot) (op, some i) st d = some st') :
    ∀ e ∈ st'.graph.edges, e ∉ st.graph.edges →
      e.2.2 = { dim := [], input_index := some cslot, output_index := some i } ∧
      st'.graph.nodes[e.1]? = some oN ∧ st'.graph.nodes[e.2.1]? = some cN :=
  add_op_to_graph_new_edge hInv hc ho h

/-- Counterexample for C6 as stated: in the consumer-pass scenario `exOpsC6`
(`a`/Const's output 0 consumed by `b`/Add input 0), the produced graph's one
edge runs from the operation node `a` to the consumer node `b`; no edge runs
from the consumer to the operation. -/
theorem claim6_counterexample :
    generate_graph exOpsC6 none = some exGraphA ∧
    edgeFromTo exGraphA { name := ["a"], ty := "Const" } { name := ["b"], ty := "Add" } = true ∧
    edgeFromTo exGraphA { name := ["b"], ty := "Add" } { name := ["a"], ty := "Const" } = false := by
  decide

/-- Witness for C6 (amended) on the concrete consumer-pass call of `exOpsC6`. -/
theorem claim6_witness :
    ((1, 0, { dim := [], input_index := some 0, output_index := some 0 }) :
        Nat × Nat × Edge).2.2 =
      { dim := [], input_index := some 0, output_index := some 0 } ∧
    stC6res.graph.nodes[(1 : Nat)]? = some { name := ["a"], ty := "Const" } ∧
    stC6res.graph.nodes[(0 : Nat)]? = some { name := ["b"], ty := "Add" } :=
  claim6_consumer_pass_edge
    { name := some ["b"], ty := some "Add", inputs := [], outputConsumers := [],
      controlInputs := [], controlOutputs := [] }
    { name := some ["a"], ty := some "Const", inputs := [], outputConsumers := [[(1, 0)]],
      controlInputs := [], controlOutputs := [] }
    0 0 initState none stC6res
    { name := ["b"], ty := "Add" } { name := ["a"], ty := "Const" }
    (by decide) (by decide) (by decide) (by decide)
    (1, 0, { dim := [], input_index := some 0, output_index := some 0 })
    (by decide) (by decide)

/-- Claim C7 (amended): the control-input pass invokes the helper as
`add_op_to_graph (op, none) (pred, none)` for each control input `pred` of
`op` (see `processOp`); any edge this call adds goes from the resolved
predecessor node to the resolved dependent node — i.e. `a → b` when `b`
lists `a` as a control input — with both indices unset. -/
theorem claim7_control_input_edge (curr pred : RawOp) (st : BuildState) (d : Option Nat)
    (st' : BuildState) (cN pN : Node) (hInv : StInv st)
    (hcur : resolveNode d curr = some cN) (hp : resolveNode d pred = some pN)
    (h : add_op_to_graph (curr, none) (pred, none) st d = some st') :
    ∀ e ∈ st'.graph.edges, e ∉ st.graph.edges →
      e.2.2 = { dim := [], input_index := none, output_index := none } ∧
      st'.graph.nodes[e.1]? = some pN ∧ st'.graph.nodes[e.2.1]? = some cN :=
  add_op_to_graph_new_edge hInv hcur hp h

/-- Counterexample for C7 as stated: in scenario C (`b`/NoOp lists `a`/NoOp
as a control input, `exOpsC7`) the graph has 2 nodes and exactly one edge,
and that edge runs from `a` to `b` with both indices unset; no edge runs
from `b` to `a`. -/
theorem claim7_counterexample :
    generate_graph exOpsC7 none = some gC7 ∧
    gC7.nodes.length = 2 ∧ gC7.edges.length = 1 ∧
    edgeFromTo gC7 { name := ["a"], ty := "NoOp" } { name := ["b"], ty := "NoOp" } = true ∧
    edgeFromTo gC7 { name := ["b"], ty := "NoOp" } { name := ["a"], ty := "NoOp" } = false := by
  decide

/-- Witness for C7 (amended) on the concrete control-input call of `exOpsC7`. -/
theorem claim7_witness :
    ((1, 0, { dim := [], input_index := none, output_index := none }) :
        Nat × Nat × Edge).2.2 =
      { dim := [], input_index := none, output_index := none } ∧
    stC7res.graph.nodes[(1 : Nat)]? = some { name := ["a"], ty := "NoOp" } ∧
    stC7res.graph.nodes[(0 : Nat)]? = some { name := ["b"], ty := "NoOp" } :=
  claim7_control_input_edge
    { name := some ["b"], ty := some "NoOp", inputs := [], outputConsumers := [],
      controlInputs := [1], controlOutputs := [] }
    { name := some ["a"], ty := some "NoOp", inputs := [], outputConsumers := [],
      controlInputs := [], controlOutputs := [] }
    initState none stC7res
    { name := ["b"], ty := "NoOp" } { name := ["a"], ty := "NoOp" }
    (by decide) (by decide) (by decide) (by decide)
    (1, 0, { dim := [], input_index := none, output_index := none })
    (by decide) (by decide)

/-! ## Claim C8: invalid text aborts the run -/

lemma from_operation_eq_none_iff (op : RawOp) :
    Node.from_operation op = none ↔ opResolvable op = false := by
  rw [Node.from_operation, opResolvable]
  cases op.name <;> cases op.ty <;> simp

lemma resolveNode_eq_none_iff (d : Option Nat) (op : RawOp) :
    resolveNode d op = none ↔ opResolvable op = false := by
  cases d with
  | none => exact from_operation_eq_none_iff op
  | some D =>
    rw [resolveNode, Node.from_operation_with_depth, Option.map_eq_none']
    exact from_operation_eq_none_iff op

lemma add_op_to_graph_fails {inp outp : RawOp × Option Nat} {d : Option Nat}
    (hfail : addFails inp.1 outp.1 = true) (st : BuildState) :
    add_op_to_graph inp outp st d = none := by
  simp only [addFails, Bool.or_eq_true, Bool.not_eq_true'] at hfail
  rw [add_op_to_graph]
  rcases hfail with hf | hf
  · rw [(resolveNode_eq_none_iff d inp.1).mpr hf]
  · cases hres : resolveNode d inp.1 with
    | none => rfl
    | some inN => rw [(resolveNode_eq_none_iff d outp.1).mpr hf]

lemma foldlM_none {α : Type} {f : BuildState → α → Option BuildState} {a : α}
    (l : List α) (ha : a ∈ l) (hnone : ∀ s, f s a = none) :
    ∀ s, l.foldlM f s = none := by
  induction l with
  | nil => cases ha
  | cons b t ih =>
    intro s
    rw [List.foldlM_cons]
    rcases List.mem_cons.mp ha with rfl | hat
    · rw [hnone s]
      rfl
    · cases hfb : f s b with
      | none => rfl
      | some s1 => exact ih hat s1

lemma mem_enumFrom_of_mem {α : Type} {a : α} : ∀ {l : List α} (k : Nat), a ∈ l →
    ∃ i, (i, a) ∈ List.enumFrom k l := by
  intro l
  induction l with
  | nil => intro k h; cases h
  | cons b t ih =>
    intro k h
    rcases List.mem_cons.mp h with rfl | ht
    · exact ⟨k, List.mem_cons_self _ _⟩
    · obtain ⟨i, hi⟩ := ih (k + 1) ht
      exact ⟨i, List.mem_cons_of_mem _ hi⟩

lemma mem_enum_of_mem {α : Type} {a : α} {l : List α} (h : a ∈ l) :
    ∃ i, (i, a) ∈ l.enum :=
  mem_enumFrom_of_mem 0 h

lemma bind_none_of_none {x : Option BuildState} {f : BuildState → Option BuildState}
    (h : ∀ s, f s = none) : x.bind f = none := by
  cases x with
  | none => rfl
  | some s => exact h s

lemma processOp_fails {ops : List RawOp} {op : RawOp} (hfail : opStepFails ops op = true)
    (d : Option Nat) (st : BuildState) : processOp ops d st op = none := by
  rw [processOp]
  rw [opStepFails] at hfail
  simp only [Bool.or_eq_true, List.any_eq_true] at hfail
  rcases hfail with ((⟨p, hp, hpf⟩ | ⟨lc, hlc, c, hc, hcf⟩) | ⟨j, hj, hjf⟩) | ⟨j, hj, hjf⟩
  · obtain ⟨i, hmem⟩ := mem_enum_of_mem hp
    rw [foldlM_none op.inputs.enum hmem (fun s => add_op_to_graph_fails hpf s) st]
    rfl
  · obtain ⟨i, hmem⟩ := mem_enum_of_mem hlc
    have hstep : ∀ s, (fun st (p : Nat × List (Nat × Nat)) => p.2.foldlM
        (fun st c => add_op_to_graph (opAt ops c.1, some c.2) (op, some p.1) st d) st)
          s (i, lc) = none :=
      fun s => foldlM_none lc hc (fun s' => add_op_to_graph_fails hcf s') s
    apply bind_none_of_none
    intro s
    rw [foldlM_none op.outputConsumers.enum hmem hstep s]
    rfl
  · apply bind_none_of_none
    intro s
    apply bind_none_of_none
    intro s'
    rw [foldlM_none op.controlOutputs hj (fun s => add_op_to_graph_fails hjf s) s']
    rfl
  · apply bind_none_of_none
    intro s
    apply bind_none_of_none
    intro s'
    apply bind_none_of_none
    intro s''
    exact foldlM_none op.controlInputs hj (fun s => add_op_to_graph_fails hjf s) s''

/-- Claim C8 (amended): if any relationship processed during the pass has an
endpoint operation whose raw name or type is not valid text, resolution of
that endpoint fails and the whole run aborts with no graph produced.  (An
invalid operation that is never resolved — no relationship mentions it — does
not abort the run; see the counterexample.) -/
theorem claim8_invalid_text_aborts (ops : List RawOp) (d : Option Nat)
    (h : ∃ op ∈ ops, opStepFails ops op = true) :
    generate_graph ops d = none := by
  obtain ⟨op, hop, hfail⟩ := h
  rw [generate_graph]
  rw [foldlM_none ops hop (fun s => processOp_fails hfail d s) initState]
  rfl

/-- Counterexample for C8 as stated: a run containing an operation with an
invalid name still produces a graph when that operation participates in no
relationship — the run does not abort. -/
theorem claim8_counterexample :
    (∃ op ∈ exOpsC8iso, op.name = none) ∧
    generate_graph exOpsC8iso none = some { nodes := [], edges := [] } := by
  decide

/-- Witness for C8 (amended): operation 0 pulls its input from an operation
with an invalid name, so the run aborts. -/
theorem claim8_witness : generate_graph exOpsC8ref none = none :=
  claim8_invalid_text_aborts exOpsC8ref none (by decide)

/-! ## Claim C9: an isolated operation contributes nothing -/

lemma foldlM_id {α : Type} {f : BuildState → α → Option BuildState} {s : BuildState} :
    ∀ {l : List α}, (∀ a ∈ l, f s a = some s) → l.foldlM f s = some s := by
  intro l
  induction l with
  | nil => intro _; rfl
  | cons b t ih =>
    intro h
    rw [List.foldlM_cons, h b (List.mem_cons_self _ _)]
    exact ih (fun a ha => h a (List.mem_cons_of_mem _ ha))

lemma snd_mem_of_mem_enumFrom {α : Type} {p : Nat × α} : ∀ {l : List α} {k : Nat},
    p ∈ List.enumFrom k l → p.2 ∈ l := by
  intro l
  induction l with
  | nil => intro k h; cases h
  | cons b t ih =>
    intro k h
    rcases List.mem_cons.mp h with heq | ht
    · rw [heq]
      exact List.mem_cons_self _ _
    · exact List.mem_cons_of_mem _ (ih ht)

/-- Claim C9: an operation with no data inputs, no registered output
consumers, no control inputs and no control outputs contributes nothing to
the graph: its per-operation pass returns the builder state unchanged.
Nodes are created only as endpoints of attempted edges, so (with no other
operation referencing it either) such an operation contributes no node. -/
theorem claim9_isolated_op_contributes_nothing (ops : List RawOp) (d : Option Nat)
    (st : BuildState) (op : RawOp) (h1 : op.inputs = [])
    (h2 : ∀ l ∈ op.outputConsumers, l = []) (h3 : op.controlInputs = [])
    (h4 : op.controlOutputs = []) :
    processOp ops d st op = some st := by
  have hfold2 : op.outputConsumers.enum.foldlM
      (fun st (p : Nat × List (Nat × Nat)) => p.2.foldlM
        (fun st c => add_op_to_graph (opAt ops c.1, some c.2) (op, some p.1) st d) st)
      st = some st := by
    apply foldlM_id
    intro a ha
    have ha2 : a.2 = [] := h2 a.2 (snd_mem_of_mem_enumFrom ha)
    rw [ha2]
    rfl
  rw [processOp, h1, h3, h4]
  simp only [List.enum_nil, List.foldlM_nil, Option.pure_def, Option.some_bind, hfold2]

/-- Witness for C9: an isolated two-output operation leaves a nontrivial
builder state untouched. -/
theorem claim9_witness : processOp exOpsA none stC5 opIso = some stC5 :=
  claim9_isolated_op_contributes_nothing exOpsA none stC5 opIso rfl (by decide) rfl rfl

/-! ## Claim C10: depth limit zero collapses everything to one block -/

lemma from_operation_some {op : RawOp} {m : Node} (h : Node.from_operation op = some m) :
    op.name = some m.name ∧ op.ty = some m.ty := by
  rw [Node.from_operation] at h
  cases hn : op.name with
  | none =>
    rw [hn] at h
    cases h
  | some ns =>
    cases ht : op.ty with
    | none =>
      rw [hn, ht] at h
      cases h
    | some t =>
      rw [hn, ht] at h
      have hm := Option.some.inj h
      rw [← hm]
      exact ⟨rfl, rfl⟩

lemma resolve_zero_block {op : RawOp} {n : Node} (hname : op.name ≠ some [])
    (h : resolveNode (some 0) op = some n) : n = blockNode := by
  rw [resolveNode, Node.from_operation_with_depth] at h
  cases hfo : Node.from_operation op with
  | none =>
    rw [hfo] at h
    cases h
  | some m =>
    rw [hfo, Option.map_some'] at h
    obtain ⟨hn, _⟩ := from_operation_some hfo
    have hne : m.name ≠ [] := by
      intro hnil
      rw [hnil] at hn
      exact hname hn
    have hlt : 0 < m.name.length := List.length_pos.mpr hne
    rw [Node.limit_depth_of_lt _ _ hlt, List.take_zero] at h
    exact (Option.some.inj h).symm

lemma getOrInsert_nodes {st : BuildState} {n : Node} {st' : BuildState} {idx : Nat}
    (h : st.getOrInsert n = (st', idx)) :
    st'.graph.nodes = st.graph.nodes ∨ st'.graph.nodes = st.graph.nodes ++ [n] := by
  rw [BuildState.getOrInsert] at h
  cases hf : st.nodes.find? (fun p => decide (p.1 = n)) with
  | some p =>
    rw [hf] at h
    have h' : (st, p.2) = (st', idx) := h
    injection h' with hl hr
    rw [← hl]
    exact Or.inl rfl
  | none =>
    rw [hf] at h
    have h' : (({ graph := { nodes := st.graph.nodes ++ [n], edges := st.graph.edges },
                  nodes := st.nodes ++ [(n, st.graph.nodes.length)] } : BuildState),
        st.graph.nodes.length) = (st', idx) := h
    injection h' with hl hr
    rw [← hl]
    exact Or.inr rfl

lemma add_zero_preserves {inp outp : RawOp × Option Nat} {st st' : BuildState}
    (hin : inp.1.name ≠ some []) (hout : outp.1.name ≠ some [])
    (hAB : AllBlock st) (h : add_op_to_graph inp outp st (some 0) = some st') :
    AllBlock st' := by
  obtain ⟨inN, outN, st1, in_idx, st2, out_idx, hr1, hr2, hg1, hg2, hcase⟩ :=
    add_op_to_graph_eq h
  have hinB : inN = blockNode := resolve_zero_block hin hr1
  have houtB : outN = blockNode := resolve_zero_block hout hr2
  rcases hcase with ⟨hne, _, _⟩ | ⟨_, heq⟩
  · exact absurd (hinB.trans houtB.symm) hne
  · subst heq
    constructor
    · intro n hn
      have hmem2 := getOrInsert_nodes hg2
      have hmem1 := getOrInsert_nodes hg1
      have hn1 : n ∈ st1.graph.nodes ++ [outN] ∨ n ∈ st1.graph.nodes := by
        rcases hmem2 with heq2 | heq2
        · rw [heq2] at hn
          exact Or.inr hn
        · rw [heq2] at hn
          exact Or.inl hn
      have hn2 : n ∈ st.graph.nodes ∨ n = outN ∨ n = inN := by
        rcases hn1 with hn1 | hn1
        · rcases List.mem_append.mp hn1 with hx | hx
          · rcases hmem1 with heq1 | heq1
            · rw [heq1] at hx
              exact Or.inl hx
            · rw [heq1] at hx
              rcases List.mem_append.mp hx with hy | hy
              · exact Or.inl hy
              · exact Or.inr (Or.inr (List.mem_singleton.mp hy))
          · exact Or.inr (Or.inl (List.mem_singleton.mp hx))
        · rcases hmem1 with heq1 | heq1
          · rw [heq1] at hn1
            exact Or.inl hn1
          · rw [heq1] at hn1
            rcases List.mem_append.mp hn1 with hy | hy
            · exact Or.inl hy
            · exact Or.inr (Or.inr (List.mem_singleton.mp hy))
      rcases hn2 with hx | hx | hx
      · exact hAB.1 n hx
      · rw [hx]
        exact houtB
      · rw [hx]
        exact hinB
    · rw [(getOrInsert_edges hg2).trans (getOrInsert_edges hg1)]
      exact hAB.2

lemma opAt_name {ops : List RawOp} (hops : ∀ o ∈ ops, o.name ≠ some []) (j : Nat) :
    (opAt ops j).name ≠ some [] := by
  rw [opAt]
  by_cases hj : j < ops.length
  · rw [List.getD_eq_getElem _ _ hj]
    exact hops _ (List.getElem_mem hj)
  · rw [List.getD_eq_default _ _ (by omega)]
    rw [defaultRawOp]
    simp

lemma processOp_zero_preserves {ops : List RawOp} {st st' : BuildState} {op : RawOp}
    (hops : ∀ o ∈ ops, o.name ≠ some []) (hop : op.name ≠ some [])
    (hAB : AllBlock st) (h : processOp ops (some 0) st op = some st') : AllBlock st' := by
  rw [processOp] at h
  rw [Option.bind_eq_some] at h
  obtain ⟨s1, hs1, h⟩ := h
  rw [Option.bind_eq_some] at h
  obtain ⟨s2, hs2, h⟩ := h
  rw [Option.bind_eq_some] at h
  obtain ⟨s3, hs3, h⟩ := h
  have h1 : AllBlock s1 :=
    foldlM_pres _ (fun s a s'' _ hP hs =>
      add_zero_preserves hop (opAt_name hops _) hP hs) hAB hs1
  have h2 : AllBlock s2 := by
    refine foldlM_pres _ ?_ h1 hs2
    intro s p s'' _ hP hs
    exact foldlM_pres _ (fun s a s''' _ hQ hq =>
      add_zero_preserves (opAt_name hops _) hop hQ hq) hP hs
  have h3 : AllBlock s3 :=
    foldlM_pres _ (fun s a s'' _ hP hs =>
      add_zero_preserves (opAt_name hops _) hop hP hs) h2 hs3
  exact foldlM_pres _ (fun s a s'' _ hP hs =>
    add_zero_preserves hop (opAt_name hops _) hP hs) h3 h

lemma generate_zero {ops : List RawOp} {g : PGraph}
    (hops : ∀ o ∈ ops, o.name ≠ some []) (h : generate_graph ops (some 0) = some g) :
    (∀ n ∈ g.nodes, n = blockNode) ∧ g.edges = [] := by
  rw [generate_graph] at h
  cases hf : ops.foldlM (processOp ops (some 0)) initState with
  | none =>
    rw [hf] at h
    exact Option.noConfusion h
  | some st =>
    rw [hf] at h
    have hAB : AllBlock st :=
      foldlM_pres _ (fun s a s'' ha hP hs =>
          processOp_zero_preserves hops (hops a ha) hP hs)
        ⟨fun n hn => absurd hn (List.not_mem_nil n), rfl⟩ hf
    rw [← Option.some.inj h]
    exact hAB

lemma length_le_one_of_all_eq {l : List Node} (hnd : l.Nodup)
    (hall : ∀ n ∈ l, n = blockNode) : l.length ≤ 1 := by
  cases l with
  | nil => simp
  | cons a t =>
    cases t with
    | nil => simp
    | cons b u =>
      exfalso
      have ha := hall a (List.mem_cons_self _ _)
      have hb := hall b (List.mem_cons_of_mem _ (List.mem_cons_self _ _))
      rw [List.nodup_cons] at hnd
      apply hnd.1
      rw [ha, ← hb]
      exact List.mem_cons_self _ _

/-- Claim C10: with `max_depth = 0` every operation whose name has at least
one segment resolves to the block node with the empty name; consequently a
run over operations with nonempty names yields a graph with at most one node
and no edges. -/
theorem claim10_max_depth_zero :
    (∀ (op : RawOp) (ns : List String) (t : String), op.name = some ns → op.ty = some t →
      ns ≠ [] → Node.from_operation_with_depth op 0 = some blockNode) ∧
    (∀ (ops : List RawOp) (g : PGraph), (∀ o ∈ ops, o.name ≠ some []) →
      generate_graph ops (some 0) = some g → g.nodes.length ≤ 1 ∧ g.edges = []) := by
  constructor
  · intro op ns t hn ht hne
    have hbase := from_operation_eq op ns t hn ht
    rw [Node.from_operation_with_depth, hbase, Option.map_some']
    rw [Node.limit_depth_of_lt _ _ (List.length_pos.mpr hne), List.take_zero]
    rfl
  · intro ops g hops h
    have hZ := generate_zero hops h
    refine ⟨?_, hZ.2⟩
    obtain ⟨st, hInv, rfl⟩ := generate_graph_inv h
    exact length_le_one_of_all_eq hInv.2.2.1 hZ.1

/-- Witness for C10: a one-segment operation collapses to the block node, and
the scenario-A run under `max_depth = 0` gives one node and no edges. -/
theorem claim10_witness :
    Node.from_operation_with_depth opA5 0 = some blockNode ∧
    (gC10.nodes.length ≤ 1 ∧ gC10.edges = []) :=
  ⟨claim10_max_depth_zero.1 opA5 ["a"] "Const" rfl rfl (by decide),
   claim10_max_depth_zero.2 exOpsA gC10 (by decide) (by decide)⟩

